import Mathlib

/-!
# Verification of the MBAR reweighting core of cg_openmm

This file gives a shallow embedding, in Lean 4, of the statistical core of
`cg_openmm` — the functions `expectations_free_energy` and
`bootstrap_free_energy_folding` of `cg_openmm/parameters/free_energy.py`, and
`fraction_native_contacts` of `cg_openmm/parameters/secondary_structure.py` —
and proves (or refutes) the specification claims about them.

Modelling conventions:
* `numpy` floating-point values are modelled by `ℚ` where only ring/field
  operations occur, and by `ℝ`/`EReal` where logarithms appear (`EReal`
  captures the IEEE infinities produced by `np.log(0)`).
* Imperative loops writing consecutive array slots are modelled by list
  construction (`List.range … |>.flatMap`, `List.foldl` with `List.set`),
  mirroring the iteration order of the source.
* The external MBAR solver (`pymbar`) is an external collaborator: its
  expectation functional is modelled abstractly as a per-sample weighted sum,
  and the covariance/expectation outputs entering the free-energy formulas are
  universally quantified parameters.
* `simtk` unit algebra (only multiplicative unit conversions occur here) is
  modelled by a value paired with the scale of its unit relative to fixed
  reference units.
-/

namespace CgOpenmm

/-! ## Temperature ladder (free_energy.py lines 103-120)

The source fills `full_T_list` (a `numpy` array of length
`n_sampled_T + (n_sampled_T-1)*num_intermediate_states`) with
`temps[i] + delta[i]*j` for `i` over the gaps and `j` over `0..m`, writing the
entries in order, and finally writes `temps[-1]` into the one remaining slot.
`gapList a b m` is the block of entries produced by the inner `j` loop for one
gap; the concatenation of the blocks followed by the final entry is exactly
the array the loops produce. -/

/-- Entries `temps[i] + delta[i]*j` for `j = 0..m`, with
`delta[i] = (temps[i+1]-temps[i])/(num_intermediate_states+1)`
(free_energy.py lines 115-118). -/
def gapList (a b : ℚ) (m : ℕ) : List ℚ :=
  (List.range (m + 1)).map (fun (j : ℕ) => a + ((b - a) / (m + 1 : ℚ)) * (j : ℚ))

/-- The full temperature ladder built by `expectations_free_energy`
(free_energy.py lines 103-120), for `num_intermediate_states = m ≥ 0`:
the gap blocks in order, followed by the final write `full_T_list[t] = temps[-1]`. -/
def full_T_list (temps : List ℚ) (m : ℕ) : List ℚ :=
  ((List.range (temps.length - 1)).flatMap
    (fun i => gapList (temps.getD i 0) (temps.getD (i + 1) 0) m))
  ++ [temps.getLast?.getD 0]

theorem gapList_length (a b : ℚ) (m : ℕ) : (gapList a b m).length = m + 1 := by
  rw [gapList, List.length_map, List.length_range]

theorem gapList_getD (a b : ℚ) (m j : ℕ) (hj : j < m + 1) :
    (gapList a b m).getD j 0 = a + ((b - a) / (m + 1 : ℚ)) * (j : ℚ) := by
  rw [gapList, List.getD_eq_getElem _ _ (by
    rw [List.length_map, List.length_range]; exact hj)]
  rw [List.getElem_map, List.getElem_range]

/-- Length of a `flatMap` over `List.range` whose blocks all have length `B`. -/
theorem length_flatMap_range_const {α : Type} (f : ℕ → List α) (B : ℕ)
    (hB : ∀ i, (f i).length = B) (g : ℕ) :
    ((List.range g).flatMap f).length = g * B := by
  induction g with
  | zero => simp
  | succ g ih =>
    rw [List.range_succ, List.flatMap_append, List.length_append, ih]
    simp [hB, Nat.succ_mul]

/-- Indexing into a `flatMap` over `List.range` with constant block length. -/
theorem getD_flatMap_range_const {α : Type} (d : α) (f : ℕ → List α) (B : ℕ)
    (hB : ∀ i, (f i).length = B) (g i j : ℕ) (hi : i < g) (hj : j < B) :
    ((List.range g).flatMap f).getD (i * B + j) d = (f i).getD j d := by
  induction g with
  | zero => omega
  | succ g ih =>
    rw [List.range_succ, List.flatMap_append]
    rcases Nat.lt_succ_iff_lt_or_eq.mp hi with h | h
    · rw [List.getD_append]
      · exact ih h
      · calc i * B + j < i * B + B := by omega
          _ = (i + 1) * B := by ring
          _ ≤ g * B := Nat.mul_le_mul_right B h
          _ = ((List.range g).flatMap f).length :=
              (length_flatMap_range_const f B hB g).symm
    · subst h
      rw [List.getD_append_right _ _ _ _ (by
          rw [length_flatMap_range_const f B hB]; omega)]
      rw [length_flatMap_range_const f B hB]
      simp [Nat.mul_comm]

theorem full_T_list_length (temps : List ℚ) (m : ℕ) :
    (full_T_list temps m).length = (temps.length - 1) * (m + 1) + 1 := by
  rw [full_T_list, List.length_append,
    length_flatMap_range_const _ (m + 1) (fun i => gapList_length _ _ m)]
  simp

theorem getLast?_getD_eq_getD {α : Type} (d : α) (l : List α) (h : l ≠ []) :
    l.getLast?.getD d = l.getD (l.length - 1) d := by
  have hl : 0 < l.length := List.length_pos.mpr h
  rw [List.getLast?_eq_getElem?, List.getD_eq_getElem l d (by omega),
    List.getElem?_eq_getElem (by omega)]
  rfl

/-- Every entry of the ladder, uniformly: entry `k` (for `k` up to and including
the final slot `(n-1)*(m+1)`) is `temps[k/(m+1)] + delta[k/(m+1)] * (k mod (m+1))`. -/
theorem full_T_list_getD (temps : List ℚ) (m : ℕ) (hne : temps ≠ []) (k : ℕ)
    (hk : k ≤ (temps.length - 1) * (m + 1)) :
    (full_T_list temps m).getD k 0 =
      temps.getD (k / (m + 1)) 0 +
        ((temps.getD (k / (m + 1) + 1) 0 - temps.getD (k / (m + 1)) 0) / (m + 1 : ℚ))
          * ((k % (m + 1) : ℕ) : ℚ) := by
  have hbody : ((List.range (temps.length - 1)).flatMap
      (fun i => gapList (temps.getD i 0) (temps.getD (i + 1) 0) m)).length
      = (temps.length - 1) * (m + 1) :=
    length_flatMap_range_const _ (m + 1) (fun i => gapList_length _ _ m) _
  rcases eq_or_lt_of_le hk with heq | hlt
  · have hq : k / (m + 1) = temps.length - 1 := by
      rw [heq, Nat.mul_div_cancel _ (Nat.succ_pos m)]
    have hr : k % (m + 1) = 0 := by rw [heq]; exact Nat.mul_mod_left _ _
    rw [full_T_list, List.getD_append_right _ _ _ _ (by rw [hbody]; omega),
      hbody, hq, hr, heq, Nat.sub_self]
    simp [getLast?_getD_eq_getD 0 temps hne]
  · have hq : k / (m + 1) < temps.length - 1 :=
      (Nat.div_lt_iff_lt_mul (Nat.succ_pos m)).mpr hlt
    have hr : k % (m + 1) < m + 1 := Nat.mod_lt _ (Nat.succ_pos m)
    have hsplit : k / (m + 1) * (m + 1) + k % (m + 1) = k := Nat.div_add_mod' k (m + 1)
    have hflat := getD_flatMap_range_const 0
      (fun i => gapList (temps.getD i 0) (temps.getD (i + 1) 0) m) (m + 1)
      (fun i => gapList_length _ _ m) (temps.length - 1) (k / (m + 1)) (k % (m + 1)) hq hr
    rw [hsplit] at hflat
    rw [full_T_list, List.getD_append _ _ _ _ (by rw [hbody]; exact hlt),
      hflat, gapList_getD _ _ _ _ hr]

/-- The difference between consecutive ladder entries is the gap step
`(temps[q+1]-temps[q])/(m+1)` where `q = k/(m+1)` is the gap containing entry `k`. -/
theorem full_T_list_succ_diff (temps : List ℚ) (m : ℕ) (hne : temps ≠ []) (k : ℕ)
    (hk : k < (temps.length - 1) * (m + 1)) :
    (full_T_list temps m).getD (k + 1) 0 - (full_T_list temps m).getD k 0 =
      (temps.getD (k / (m + 1) + 1) 0 - temps.getD (k / (m + 1)) 0) / (m + 1 : ℚ) := by
  have hm : ((m : ℚ) + 1) ≠ 0 := by positivity
  have hr : k % (m + 1) < m + 1 := Nat.mod_lt _ (Nat.succ_pos m)
  have hsplit : k / (m + 1) * (m + 1) + k % (m + 1) = k := Nat.div_add_mod' k (m + 1)
  rw [full_T_list_getD temps m hne k (le_of_lt hk),
    full_T_list_getD temps m hne (k + 1) (by omega)]
  rcases Nat.lt_or_ge (k % (m + 1) + 1) (m + 1) with hcase | hcase
  · -- the successor stays in the same gap
    have hk1 : k + 1 = (k % (m + 1) + 1) + k / (m + 1) * (m + 1) := by omega
    have hq' : (k + 1) / (m + 1) = k / (m + 1) := by
      rw [hk1, Nat.add_mul_div_right _ _ (Nat.succ_pos m), Nat.div_eq_of_lt hcase,
        Nat.zero_add]
    have hr' : (k + 1) % (m + 1) = k % (m + 1) + 1 := by
      rw [hk1, Nat.add_mul_mod_self_right, Nat.mod_eq_of_lt hcase]
    rw [hq', hr']
    push_cast
    ring
  · -- the successor is the first entry of the next gap (or the final slot)
    have hrm : k % (m + 1) = m := by omega
    have hk1 : k + 1 = (k / (m + 1) + 1) * (m + 1) := by
      have hexp : (k / (m + 1) + 1) * (m + 1) = k / (m + 1) * (m + 1) + (m + 1) := by
        ring
      omega
    have hq' : (k + 1) / (m + 1) = k / (m + 1) + 1 := by
      rw [hk1, Nat.mul_div_cancel _ (Nat.succ_pos m)]
    have hr' : (k + 1) % (m + 1) = 0 := by
      rw [hk1]; exact Nat.mul_mod_left _ _
    rw [hq', hr', hrm]
    have hm1 : ((m : ℚ) + 1) ≠ 0 := hm
    push_cast
    field_simp
    ring

theorem temps_getD_lt_succ (temps : List ℚ) (hmono : List.Chain' (· < ·) temps)
    (q : ℕ) (hq : q < temps.length - 1) :
    temps.getD q 0 < temps.getD (q + 1) 0 := by
  have h := List.chain'_iff_get.mp hmono q hq
  rwa [List.get_eq_getElem, List.get_eq_getElem,
    ← List.getD_eq_getElem temps 0 (by omega),
    ← List.getD_eq_getElem temps 0 (by omega)] at h

/-- C1: for every strictly sorted list of `n ≥ 2` sampled temperatures and every
`m ≥ 0` intermediate states, the ladder built by `expectations_free_energy` has
length `n + (n-1)*m`, starts at `T_1`, ends at `T_n`, is strictly increasing,
and within each gap `i` consecutive entries differ by `(T_{i+1}-T_i)/(m+1)`. -/
theorem ladder_construction_correct (temps : List ℚ) (m : ℕ)
    (h2 : 2 ≤ temps.length) (hmono : List.Chain' (· < ·) temps) :
    (full_T_list temps m).length = temps.length + (temps.length - 1) * m
    ∧ (full_T_list temps m).getD 0 0 = temps.getD 0 0
    ∧ (full_T_list temps m).getD ((full_T_list temps m).length - 1) 0
        = temps.getD (temps.length - 1) 0
    ∧ List.Chain' (· < ·) (full_T_list temps m)
    ∧ ∀ i, i < temps.length - 1 → ∀ j, j < m + 1 →
        (full_T_list temps m).getD (i * (m + 1) + j + 1) 0
          - (full_T_list temps m).getD (i * (m + 1) + j) 0
          = (temps.getD (i + 1) 0 - temps.getD i 0) / (m + 1 : ℚ) := by
  have hne : temps ≠ [] := by
    intro h; rw [h] at h2; simp at h2
  have hL : (full_T_list temps m).length - 1 = (temps.length - 1) * (m + 1) := by
    rw [full_T_list_length]; omega
  refine ⟨?_, ?_, ?_, ?_, ?_⟩
  · obtain ⟨p, hp⟩ := Nat.exists_eq_add_of_le h2
    rw [full_T_list_length, hp]
    have h1 : 2 + p - 1 = p + 1 := by omega
    rw [h1]
    ring
  · have h0 := full_T_list_getD temps m hne 0 (Nat.zero_le _)
    simpa using h0
  · have hk := full_T_list_getD temps m hne ((temps.length - 1) * (m + 1)) le_rfl
    rw [Nat.mul_div_cancel _ (Nat.succ_pos m), Nat.mul_mod_left] at hk
    rw [hL, hk]
    simp
  · rw [List.chain'_iff_get]
    intro i hi
    have hi' : i < (temps.length - 1) * (m + 1) := by omega
    have hdiff := full_T_list_succ_diff temps m hne i hi'
    have hq : i / (m + 1) < temps.length - 1 :=
      (Nat.div_lt_iff_lt_mul (Nat.succ_pos m)).mpr hi'
    have hpos : 0 < (temps.getD (i / (m + 1) + 1) 0 - temps.getD (i / (m + 1)) 0)
        / (m + 1 : ℚ) := by
      apply div_pos
      · have := temps_getD_lt_succ temps hmono _ hq
        linarith
      · positivity
    rw [List.get_eq_getElem, List.get_eq_getElem,
      ← List.getD_eq_getElem (full_T_list temps m) 0 (by omega),
      ← List.getD_eq_getElem (full_T_list temps m) 0 (by omega)]
    linarith
  · intro i hi j hj
    have hk : i * (m + 1) + j < (temps.length - 1) * (m + 1) := by
      calc i * (m + 1) + j < i * (m + 1) + (m + 1) := by omega
        _ = (i + 1) * (m + 1) := by ring
        _ ≤ (temps.length - 1) * (m + 1) := Nat.mul_le_mul_right _ (by omega)
    have hdiff := full_T_list_succ_diff temps m hne (i * (m + 1) + j) hk
    have hdiv : (i * (m + 1) + j) / (m + 1) = i := by
      rw [Nat.add_comm, Nat.add_mul_div_right _ _ (Nat.succ_pos m),
        Nat.div_eq_of_lt hj, Nat.zero_add]
    rw [hdiv] at hdiff
    exact hdiff

/-- C1 witness: the ladder for sampled temperatures `[1, 2]` with one
intermediate state. -/
theorem ladder_construction_correct_witness :
    (2 ≤ ([1, 2] : List ℚ).length ∧ List.Chain' (· < ·) ([1, 2] : List ℚ))
    ∧ ((full_T_list [1, 2] 1).length
          = ([1, 2] : List ℚ).length + (([1, 2] : List ℚ).length - 1) * 1
        ∧ (full_T_list [1, 2] 1).getD 0 0 = ([1, 2] : List ℚ).getD 0 0
        ∧ (full_T_list [1, 2] 1).getD ((full_T_list [1, 2] 1).length - 1) 0
            = ([1, 2] : List ℚ).getD (([1, 2] : List ℚ).length - 1) 0
        ∧ List.Chain' (· < ·) (full_T_list [1, 2] 1)
        ∧ ∀ i, i < ([1, 2] : List ℚ).length - 1 → ∀ j, j < 1 + 1 →
            (full_T_list [1, 2] 1).getD (i * (1 + 1) + j + 1) 0
              - (full_T_list [1, 2] 1).getD (i * (1 + 1) + j) 0
              = (([1, 2] : List ℚ).getD (i + 1) 0 - ([1, 2] : List ℚ).getD i 0)
                  / (1 + 1 : ℚ)) :=
  ⟨⟨by norm_num, by norm_num⟩,
    ladder_construction_correct [1, 2] 1 (by norm_num) (by norm_num)⟩

/-! ## The ladder builder for arbitrary integer `num_intermediate_states`

`expectations_free_energy` performs no validation of `num_intermediate_states`.
For a negative `m` the source behaves as follows (free_energy.py lines 103-120):
`np.zeros(n + (n-1)*m)` raises `ValueError` when the size is negative; the
write `full_T_list[0] = temps[0]` raises `IndexError` when the array is empty
(or `temps` is empty); otherwise the inner loop `for j in range(m+1)` is empty
for `m < 0` (the division by `m+1 = 0` in `delta[i]` only emits a numpy
warning, producing an unused `inf`), so the only surviving write is the final
`full_T_list[t] = temps[-1]` at `t = 0`.  For `m ≥ 0` the behaviour is
`full_T_list`. -/

/-- The ladder computation of `expectations_free_energy` for an arbitrary
integer `num_intermediate_states`, with the numpy exceptions made explicit. -/
def full_T_list_py (temps : List ℚ) (m : ℤ) : Except String (List ℚ) :=
  if (temps.length : ℤ) + ((temps.length : ℤ) - 1) * m < 0 then
    .error "ValueError: negative dimensions are not allowed"
  else if (temps.length : ℤ) + ((temps.length : ℤ) - 1) * m = 0 then
    .error "IndexError: index 0 is out of bounds for axis 0 with size 0"
  else if temps.length = 0 then
    .error "IndexError: index 0 is out of bounds for axis 0 with size 0"
  else if m < 0 then
    .ok [temps.getLast?.getD 0]
  else
    .ok (full_T_list temps m.toNat)

/-- C7 counterexample: with two sampled temperatures and
`num_intermediate_states = -1` the call is not rejected; it silently returns
the one-entry ladder `[T_n]`. -/
theorem negative_intermediates_not_rejected :
    full_T_list_py [300, 400] (-1) = .ok [400] := by
  norm_num [full_T_list_py]

/-- C7 amended: `expectations_free_energy` performs no validation of
`num_intermediate_states < 0`: for `m = -1` and `n ≥ 2` sampled temperatures
the ladder builder silently produces the single-entry ladder `[T_n]` (length
`n + (n-1)*(-1) = 1`) and the calculation proceeds to the MBAR stage. -/
theorem negative_one_intermediates_silently_degenerate (temps : List ℚ)
    (h2 : 2 ≤ temps.length) :
    full_T_list_py temps (-1) = .ok [temps.getLast?.getD 0] := by
  have hsize : (temps.length : ℤ) + ((temps.length : ℤ) - 1) * (-1) = 1 := by ring
  rw [full_T_list_py, hsize]
  rw [if_neg (by norm_num), if_neg (by norm_num), if_neg (by omega),
    if_pos (by norm_num)]

/-- C7 amended witness. -/
theorem negative_one_intermediates_silently_degenerate_witness :
    2 ≤ ([300, 400] : List ℚ).length
    ∧ full_T_list_py [300, 400] (-1) = .ok [([300, 400] : List ℚ).getLast?.getD 0] :=
  ⟨by norm_num, negative_one_intermediates_silently_degenerate [300, 400] (by norm_num)⟩

/-! ## The sample-count vector `N_k` (free_energy.py lines 125-134)

The source walks the ladder once, keeping a cursor `ti` into the sampled
temperature list; a ladder entry equal to `temps[ti]` receives
`n_samples // len(temps)` samples and advances the cursor, all other entries
keep the `np.zeros` value. -/

/-- One step of the `N_k` filling loop, recursing over the remaining ladder
entries with the cursor `ti`. -/
def N_k_build (fullT : List ℚ) (temps : List ℚ) (n_samples : ℕ) (ti : ℕ) : List ℕ :=
  match fullT with
  | [] => []
  | T :: rest =>
    if ti < temps.length ∧ T = temps.getD ti 0 then
      (n_samples / temps.length) :: N_k_build rest temps n_samples (ti + 1)
    else
      0 :: N_k_build rest temps n_samples ti

/-- The `N_k` vector built by `expectations_free_energy` for the ladder of
`temps` with `m` intermediate states and `n_samples` total samples. -/
def N_k (temps : List ℚ) (m : ℕ) (n_samples : ℕ) : List ℕ :=
  N_k_build (full_T_list temps m) temps n_samples 0

theorem N_k_build_no_match (xs rest temps : List ℚ) (ns ti : ℕ)
    (h : ∀ x ∈ xs, ¬(ti < temps.length ∧ x = temps.getD ti 0)) :
    N_k_build (xs ++ rest) temps ns ti
      = List.replicate xs.length 0 ++ N_k_build rest temps ns ti := by
  induction xs with
  | nil => simp
  | cons x xs ih =>
    rw [List.cons_append, N_k_build, if_neg (h x (List.mem_cons_self x xs))]
    rw [ih (fun y hy => h y (List.mem_cons_of_mem x hy))]
    simp [List.replicate_succ]

theorem gapList_head_cons (a b : ℚ) (m : ℕ) :
    gapList a b m
      = a :: (List.range m).map
          (fun (j : ℕ) => a + ((b - a) / (m + 1 : ℚ)) * ((j : ℚ) + 1)) := by
  rw [gapList, List.range_succ_eq_map, List.map_cons, List.map_map]
  congr 1
  · push_cast; ring
  · congr 1
    funext j
    simp only [Function.comp, Nat.succ_eq_add_one]
    push_cast
    ring

/-- Walking the matcher over the gaps from sampled index `t` on: every gap head
consumes one cursor position, the intermediate entries are skipped. -/
theorem N_k_build_suffix (temps : List ℚ) (m ns : ℕ)
    (hmono : List.Chain' (· < ·) temps) (hne : temps ≠ []) :
    ∀ g t, g + t = temps.length - 1 →
    N_k_build
      (((List.range' t g).flatMap
          (fun i => gapList (temps.getD i 0) (temps.getD (i + 1) 0) m))
        ++ [temps.getLast?.getD 0]) temps ns t
      = (List.range' t g).flatMap (fun _ => (ns / temps.length) :: List.replicate m 0)
        ++ [ns / temps.length] := by
  intro g
  induction g with
  | zero =>
    intro t ht
    have hlen : 0 < temps.length := List.length_pos.mpr hne
    have ht' : t = temps.length - 1 := by omega
    rw [List.range'_zero]
    simp only [List.flatMap_nil, List.nil_append]
    rw [N_k_build, if_pos ⟨by omega, by rw [getLast?_getD_eq_getD 0 temps hne, ht']⟩]
    rfl
  | succ g ih =>
    intro t ht
    have hlen : 0 < temps.length := List.length_pos.mpr hne
    have htlt : t < temps.length - 1 := by omega
    have hab : temps.getD t 0 < temps.getD (t + 1) 0 :=
      temps_getD_lt_succ temps hmono t htlt
    rw [List.range'_succ, List.flatMap_cons, List.flatMap_cons, List.append_assoc,
      gapList_head_cons, List.cons_append]
    rw [N_k_build, if_pos ⟨by omega, rfl⟩]
    have hskip : ∀ x ∈ (List.range m).map
        (fun (j : ℕ) => temps.getD t 0 +
          ((temps.getD (t + 1) 0 - temps.getD t 0) / (m + 1 : ℚ)) * ((j : ℚ) + 1)),
        ¬(t + 1 < temps.length ∧ x = temps.getD (t + 1) 0) := by
      intro x hx
      rcases List.mem_map.mp hx with ⟨j, hj, rfl⟩
      rintro ⟨-, heq⟩
      have hjm : (j : ℚ) + 1 < (m : ℚ) + 1 := by
        have hj' : j < m := List.mem_range.mp hj
        exact_mod_cast Nat.succ_lt_succ hj'
      have hd : 0 < (temps.getD (t + 1) 0 - temps.getD t 0) / (m + 1 : ℚ) := by
        apply div_pos (by linarith) (by positivity)
      have hlt : temps.getD t 0 +
          ((temps.getD (t + 1) 0 - temps.getD t 0) / (m + 1 : ℚ)) * ((j : ℚ) + 1)
          < temps.getD (t + 1) 0 := by
        have hmul : ((temps.getD (t + 1) 0 - temps.getD t 0) / (m + 1 : ℚ)) * ((j : ℚ) + 1)
            < ((temps.getD (t + 1) 0 - temps.getD t 0) / (m + 1 : ℚ)) * ((m : ℚ) + 1) := by
          exact mul_lt_mul_of_pos_left hjm hd
        have hcancel : ((temps.getD (t + 1) 0 - temps.getD t 0) / (m + 1 : ℚ)) * ((m : ℚ) + 1)
            = temps.getD (t + 1) 0 - temps.getD t 0 := by
          field_simp
        linarith
      rw [heq] at hlt
      exact lt_irrefl _ hlt
    rw [N_k_build_no_match _ _ _ _ _ hskip]
    rw [ih (t + 1) (by omega)]
    simp [List.range'_succ, List.length_map]

/-- The `N_k` vector in closed form: one block of `(n_samples/n) :: m zeros` per
gap, followed by the final sampled entry. -/
theorem N_k_closed_form (temps : List ℚ) (m ns : ℕ) (h1 : 1 ≤ temps.length)
    (hmono : List.Chain' (· < ·) temps) :
    N_k temps m ns
      = (List.range (temps.length - 1)).flatMap
          (fun _ => (ns / temps.length) :: List.replicate m 0)
        ++ [ns / temps.length] := by
  have hne : temps ≠ [] := by
    intro h; rw [h] at h1; simp at h1
  rw [N_k, full_T_list, List.range_eq_range',
    N_k_build_suffix temps m ns hmono hne (temps.length - 1) 0 (by omega),
    ← List.range_eq_range']

theorem sum_flatMap_range_const (blk : List ℕ) (g : ℕ) :
    ((List.range g).flatMap (fun _ => blk)).sum = g * blk.sum := by
  induction g with
  | zero => simp
  | succ g ih =>
    rw [List.range_succ, List.flatMap_append, List.sum_append, ih]
    simp [Nat.succ_mul]

theorem getD_replicate_zero (m r : ℕ) : (List.replicate m (0 : ℕ)).getD r 0 = 0 := by
  induction m generalizing r with
  | zero => simp
  | succ m ih => cases r <;> simp [List.replicate_succ, ih]

/-- C5 counterexample: with sampled temperatures `[300, 400]`, no intermediate
states and `3` samples, `sum(N_k) = 2 * (3 // 2) = 2`, not the total `3`:
the invariant `sum(N_k) == total_samples` fails when the sample count is not
divisible by the number of sampled temperatures. -/
theorem N_k_sum_misses_total :
    (N_k [300, 400] 0 3).sum = 2 ∧ (N_k [300, 400] 0 3).sum ≠ 3 := by
  have h := N_k_closed_form [300, 400] 0 3 (by norm_num) (by norm_num)
  rw [h]
  decide

/-- C5 amended: `N_k` holds `n_samples // n` at exactly the ladder positions of
the sampled temperatures (the indices divisible by `m+1`) and `0` elsewhere, so
`sum(N_k) = n * (n_samples // n)` — which equals the total sample count only
when `n` divides it (and the sampled entries are nonzero only when
`n_samples ≥ n`). -/
theorem N_k_positions_and_sum (temps : List ℚ) (m ns : ℕ)
    (h2 : 2 ≤ temps.length) (hmono : List.Chain' (· < ·) temps) :
    (∀ k, k ≤ (temps.length - 1) * (m + 1) →
        (N_k temps m ns).getD k 0 = if (m + 1) ∣ k then ns / temps.length else 0)
    ∧ (N_k temps m ns).sum = temps.length * (ns / temps.length) := by
  have hclosed := N_k_closed_form temps m ns (by omega) hmono
  have hblk : ∀ i : ℕ, ((ns / temps.length) :: List.replicate m (0 : ℕ)).length = m + 1 := by
    intro i; simp
  have hbody : ((List.range (temps.length - 1)).flatMap
      (fun _ => (ns / temps.length) :: List.replicate m (0 : ℕ))).length
      = (temps.length - 1) * (m + 1) :=
    length_flatMap_range_const _ (m + 1) hblk _
  constructor
  · intro k hk
    rw [hclosed]
    rcases eq_or_lt_of_le hk with heq | hlt
    · rw [List.getD_append_right _ _ _ _ (by omega), hbody, heq, Nat.sub_self]
      rw [if_pos (dvd_mul_left _ _)]
      rfl
    · have hq : k / (m + 1) < temps.length - 1 :=
        (Nat.div_lt_iff_lt_mul (Nat.succ_pos m)).mpr hlt
      have hr : k % (m + 1) < m + 1 := Nat.mod_lt _ (Nat.succ_pos m)
      have hsplit : k / (m + 1) * (m + 1) + k % (m + 1) = k := Nat.div_add_mod' k (m + 1)
      have hflat := getD_flatMap_range_const 0
        (fun _ => (ns / temps.length) :: List.replicate m (0 : ℕ)) (m + 1)
        hblk (temps.length - 1) (k / (m + 1)) (k % (m + 1)) hq hr
      rw [hsplit] at hflat
      rw [List.getD_append _ _ _ _ (by omega), hflat]
      rcases Nat.eq_zero_or_pos (k % (m + 1)) with hr0 | hrpos
      · rw [hr0, if_pos (Nat.dvd_of_mod_eq_zero hr0)]
        rfl
      · obtain ⟨r, hr'⟩ := Nat.exists_eq_add_of_lt hrpos
        rw [if_neg (fun hdvd => by
          rw [Nat.mod_eq_zero_of_dvd hdvd] at hrpos; omega)]
        rw [hr']
        simp only [Nat.zero_add, List.getD_cons_succ]
        exact getD_replicate_zero m r
  · rw [hclosed, List.sum_append, sum_flatMap_range_const]
    obtain ⟨p, hp⟩ := Nat.exists_eq_add_of_le h2
    simp only [List.sum_cons, List.sum_nil, List.sum_replicate, smul_eq_mul,
      Nat.mul_zero, Nat.add_zero]
    rw [hp]
    have h1 : 2 + p - 1 = p + 1 := by omega
    rw [h1]
    ring

/-- C5 amended witness: sampled temperatures `[300, 400]`, one intermediate
state, four samples. -/
theorem N_k_positions_and_sum_witness :
    (2 ≤ ([300, 400] : List ℚ).length ∧ List.Chain' (· < ·) ([300, 400] : List ℚ))
    ∧ ((∀ k, k ≤ (([300, 400] : List ℚ).length - 1) * (1 + 1) →
          (N_k [300, 400] 1 4).getD k 0
            = if (1 + 1) ∣ k then 4 / ([300, 400] : List ℚ).length else 0)
        ∧ (N_k [300, 400] 1 4).sum
            = ([300, 400] : List ℚ).length * (4 / ([300, 400] : List ℚ).length)) :=
  ⟨⟨by norm_num, by norm_num⟩,
    N_k_positions_and_sum [300, 400] 1 4 (by norm_num) (by norm_num)⟩

/-! ## Production-window reconciliation (free_energy.py lines 74-81)

The branch acts only on array shapes: which rule fires is fully determined by
the frame counts, so the embedding tracks the frame count of
`array_folded_states` through the branch.  The source raises no exception in
any branch: when no rule matches it falls through and the label series is left
unchanged. -/

/-- Number of indices selected by the Python slice `[begin::spacing]` from an
axis of length `n` (for `spacing ≥ 1`). -/
def slice_count (n b s : ℕ) : ℕ := (n - b + s - 1) / s

/-- The label-series reconciliation of `expectations_free_energy`
(free_energy.py lines 74-81), at shape level: given the full energy tensor
frame count `n_all`, the production window parameters `b` (`frame_begin`) and
`s` (`sample_spacing`) and the label-series frame count `L`, return the label
frame count after the branch.  The value is wrapped in `Except` to record that
no branch raises. -/
def adapt_labels (n_all b s L : ℕ) : Except String ℕ :=
  if slice_count n_all b s ≠ L then
    if slice_count n_all b s = slice_count L 0 s then .ok (slice_count L 0 s)
    else if n_all = L then .ok (slice_count L b s)
    else .ok L
  else .ok L

/-- C6 counterexample: for a 10-frame tensor with `frame_begin = 2`,
`sample_spacing = 1` and a 7-frame label series, all three reconciliation
rules fail, yet the computation proceeds normally (no error) with the label
series unchanged. -/
theorem misalignment_not_flagged :
    (slice_count 10 2 1 ≠ 7 ∧ slice_count 10 2 1 ≠ slice_count 7 0 1 ∧ 10 ≠ 7)
    ∧ adapt_labels 10 2 1 7 = .ok 7 :=
  ⟨by decide, rfl⟩

/-- C6 amended: when the energy-tensor sample count and the label frame count
fail all three reconciliation rules, `expectations_free_energy` raises no
error: it silently proceeds with the label series unchanged (and therefore
still misaligned). -/
theorem misalignment_proceeds_unchanged (n_all b s L : ℕ)
    (h1 : slice_count n_all b s ≠ L)
    (h2 : slice_count n_all b s ≠ slice_count L 0 s)
    (h3 : n_all ≠ L) :
    adapt_labels n_all b s L = .ok L := by
  rw [adapt_labels, if_pos h1, if_neg h2, if_neg h3]

/-- C6 amended witness. -/
theorem misalignment_proceeds_unchanged_witness :
    (slice_count 12 3 2 ≠ 8 ∧ slice_count 12 3 2 ≠ slice_count 8 0 2 ∧ 12 ≠ 8)
    ∧ adapt_labels 12 3 2 8 = .ok 8 :=
  ⟨by decide, misalignment_proceeds_unchanged 12 3 2 8 (by decide) (by decide) (by decide)⟩

/-! ## Bootstrap aggregation (free_energy.py lines 271-283)

After the bootstrap trials, the source allocates a
`(n_trial_boot, len(full_T_list))` zero array per transition key, then loops
`for i_boot in range(n_trial_boot)` storing each trial's value series with
`arr_deltaF_values_boot[key][0,:] = value` — row `0`, not row `i_boot` — and
finally reports `np.mean(..., axis=0)` and `np.std(..., axis=0)`.  The
embedding reproduces the storing loop verbatim as a fold of `List.set 0`. -/

/-- `np.mean` of a rational vector. -/
def np_mean (l : List ℚ) : ℚ := l.sum / (l.length : ℚ)

/-- The storing loop: each trial's value series is written into row 0
(free_energy.py lines 277-279). -/
def store_rows (trials : List (List ℚ)) (arr : List (List ℚ)) : List (List ℚ) :=
  trials.foldl (fun acc v => acc.set 0 v) arr

/-- The per-key trial array after the storing loop, starting from the
`np.zeros((n_trial_boot, n_T))` allocation (free_energy.py lines 273-279). -/
def arr_deltaF_values_boot (trials : List (List ℚ)) (n_T : ℕ) : List (List ℚ) :=
  store_rows trials (List.replicate trials.length (List.replicate n_T 0))

/-- Column `j` of a 2-D array, as consumed by `np.mean(..., axis=0)`. -/
def column (arr : List (List ℚ)) (j : ℕ) : List ℚ := arr.map (fun row => row.getD j 0)

/-- The point estimate reported by `bootstrap_free_energy_folding` for ladder
index `j`: `np.mean` over the trial axis of the stored array
(free_energy.py line 283). -/
def boot_mean (trials : List (List ℚ)) (n_T j : ℕ) : ℚ :=
  np_mean (column (arr_deltaF_values_boot trials n_T) j)

/-- C2: with two bootstrap trials whose free-energy values at the single
ladder temperature are `4` and `8`, the reported point estimate is `4`
(the last trial's value diluted by the zero rows), not the mean `6` over the
trials: the storing loop writes every trial into row 0. -/
theorem bootstrap_mean_ignores_all_but_last_trial :
    boot_mean [[4], [8]] 1 0 = 4
    ∧ np_mean (List.map (fun row => List.getD row 0 0) [[4], [8]]) = 6
    ∧ (4 : ℚ) ≠ 6 := by
  refine ⟨?_, ?_, by norm_num⟩
  · norm_num [boot_mean, np_mean, column, arr_deltaF_values_boot, store_rows,
      List.replicate, List.foldl]
  · norm_num [np_mean]

/-! ## fraction_native_contacts (secondary_structure.py lines 191-235)

`mdtraj.compute_distances` is an external collaborator; its output — one row
of pairwise distances per frame, one column per contact of
`native_contact_list` — enters the embedding as `traj_distances`.  The source
first aborts (`exit()`) when the native contact list is empty; otherwise it
counts, per frame, the distances strictly below
`native_contact_cutoff_ratio * native_contact_distances` and divides by
`len(native_contact_distances)`. -/

/-- Per-frame count of native interactions: entries of the frame's distance row
strictly below `ratio` times the corresponding native distance
(secondary_structure.py lines 230-232). -/
def native_contact_row (row ncd : List ℚ) (ratio : ℚ) : ℕ :=
  ((row.zip ncd).filter (fun p => p.1 < ratio * p.2)).length

/-- `fraction_native_contacts` (secondary_structure.py lines 191-235): fatal
error on an empty native contact list, otherwise the per-frame fraction `Q`. -/
def fraction_native_contacts (traj_distances : List (List ℚ))
    (native_contact_list : List (ℕ × ℕ)) (native_contact_distances : List ℚ)
    (native_contact_cutoff_ratio : ℚ) : Except String (List ℚ) :=
  if native_contact_list.length = 0 then
    .error "ERROR: there are 0 native interactions with the current cutoff distance."
  else
    .ok (traj_distances.map (fun row =>
      (native_contact_row row native_contact_distances native_contact_cutoff_ratio : ℚ)
        / (native_contact_distances.length : ℚ)))

/-- C8: `fraction_native_contacts` terminates with a fatal error exactly when
the native-contact list is empty; for a non-empty list the error branch is
never taken and a result is returned. -/
theorem zero_native_contacts_fatal (traj_distances : List (List ℚ))
    (native_contact_list : List (ℕ × ℕ)) (native_contact_distances : List ℚ)
    (ratio : ℚ) :
    (fraction_native_contacts traj_distances native_contact_list
        native_contact_distances ratio).isOk
      = !native_contact_list.isEmpty := by
  rw [fraction_native_contacts]
  cases native_contact_list with
  | nil => rfl
  | cons p t => rfl

/-- C9: for a non-empty contact list (with the mdtraj shape contract: one
distance per contact in every frame row), the returned `Q` assigns to each
frame the number of contacts strictly below `ratio` times their native
distance divided by the total number of reference contacts, and every entry
lies in `[0, 1]`. -/
theorem fraction_native_contacts_formula (traj_distances : List (List ℚ))
    (native_contact_list : List (ℕ × ℕ)) (native_contact_distances : List ℚ)
    (ratio : ℚ) (hne : native_contact_list ≠ [])
    (hlen : native_contact_distances.length = native_contact_list.length)
    (hrows : ∀ row ∈ traj_distances, row.length = native_contact_distances.length) :
    ∃ Q : List ℚ,
      fraction_native_contacts traj_distances native_contact_list
          native_contact_distances ratio = .ok Q
      ∧ Q.length = traj_distances.length
      ∧ ∀ f, f < traj_distances.length →
          Q.getD f 0 = (native_contact_row (traj_distances.getD f [])
              native_contact_distances ratio : ℚ)
              / (native_contact_distances.length : ℚ)
          ∧ 0 ≤ Q.getD f 0 ∧ Q.getD f 0 ≤ 1 := by
  have hcond : ¬(native_contact_list.length = 0) := by
    simpa [List.length_eq_zero] using hne
  have hpos : 0 < native_contact_distances.length := by
    rw [hlen]
    exact List.length_pos.mpr hne
  refine ⟨_, by rw [fraction_native_contacts, if_neg hcond], by simp, ?_⟩
  intro f hf
  have hfm : f < (traj_distances.map (fun row =>
      (native_contact_row row native_contact_distances ratio : ℚ)
        / (native_contact_distances.length : ℚ))).length := by
    rw [List.length_map]; exact hf
  rw [List.getD_eq_getElem _ _ hfm, List.getElem_map,
    List.getD_eq_getElem _ _ hf]
  refine ⟨rfl, ?_, ?_⟩
  · apply div_nonneg
    · exact_mod_cast Nat.zero_le _
    · exact_mod_cast Nat.zero_le _
  · rw [div_le_one (by exact_mod_cast hpos)]
    have hcount : native_contact_row traj_distances[f] native_contact_distances ratio
        ≤ native_contact_distances.length := by
      calc native_contact_row traj_distances[f] native_contact_distances ratio
          ≤ (traj_distances[f].zip native_contact_distances).length :=
            List.length_filter_le _ _
        _ ≤ native_contact_distances.length := by
            rw [List.length_zip]
            exact min_le_right _ _
    exact_mod_cast hcount

/-- C9 witness: one frame with distances `[1, 3]` against native distances
`[2, 2]` at cutoff ratio `1` gives `Q = [1/2]`. -/
theorem fraction_native_contacts_formula_witness :
    (([(0, 1), (0, 2)] : List (ℕ × ℕ)) ≠ []
      ∧ ([2, 2] : List ℚ).length = ([(0, 1), (0, 2)] : List (ℕ × ℕ)).length
      ∧ ∀ row ∈ ([[1, 3]] : List (List ℚ)), row.length = ([2, 2] : List ℚ).length)
    ∧ ∃ Q : List ℚ,
      fraction_native_contacts [[1, 3]] [(0, 1), (0, 2)] [2, 2] 1 = .ok Q
      ∧ Q.length = ([[1, 3]] : List (List ℚ)).length
      ∧ ∀ f, f < ([[1, 3]] : List (List ℚ)).length →
          Q.getD f 0 = (native_contact_row (([[1, 3]] : List (List ℚ)).getD f [])
              [2, 2] 1 : ℚ) / (([2, 2] : List ℚ).length : ℚ)
          ∧ 0 ≤ Q.getD f 0 ∧ Q.getD f 0 ≤ 1 :=
  ⟨⟨by decide, by decide, by
      intro row hrow
      rw [List.mem_singleton] at hrow
      subst hrow
      rfl⟩,
    fraction_native_contacts_formula [[1, 3]] [(0, 1), (0, 2)] [2, 2] 1
      (by decide) (by decide) (by
        intro row hrow
        rw [List.mem_singleton] at hrow
        subst hrow
        rfl)⟩

/-! ## Free-energy values from MBAR expectations (free_energy.py lines 143-194)

The MBAR expectations `results[str(i)][0]` and the covariance blocks
`results[str(i)][2]` are outputs of the external solver and enter as the
parameters `P` and (for the uncertainty) `S`; the loops of lines 168-182
build a dictionary keyed `state{s1}_state{s2}` over the ladder indices.
`np.log` of `0` yields `-inf`; values are modelled in `EReal` to retain this
(for negative arguments numpy yields `NaN`, which no claim exercises). -/

/-- `np.log` valued in `EReal`: `-∞` at `0`, the real logarithm elsewhere. -/
noncomputable def np_log (x : ℝ) : EReal :=
  if x = 0 then ⊥ else ((Real.log x : ℝ) : EReal)

/-- The Boltzmann constant in kJ/(mol·K), the value bound at
free_energy.py lines 12-13 (`simtk.unit.MOLAR_GAS_CONSTANT_R` converted to
kilojoule/kelvin/mole). -/
def kB_val : ℝ := 0.00831446261815324

theorem kB_val_pos : 0 < kB_val := by norm_num [kB_val]

/-- One free-energy entry (free_energy.py lines 179-182), as the number stored
in `F_unit`: `-kB * T * (log P1 - log P2)`. -/
noncomputable def deltaF_value (T P1 P2 : ℝ) : EReal :=
  ((-kB_val * T : ℝ) : EReal) * (np_log P1 - np_log P2)

/-- The transition keys in the order generated by the loops
`for s1 in range(n_conf_states): for s2 in range(s1+1, n_conf_states)`
(free_energy.py lines 168-172). -/
def transition_pairs (n : ℕ) : List (ℕ × ℕ) :=
  (List.range n).flatMap
    (fun s1 => (List.range' (s1 + 1) (n - (s1 + 1))).map (fun s2 => (s1, s2)))

/-- The `deltaF_values` dictionary (free_energy.py lines 162-182): for each
transition key, the series of free-energy entries over the ladder indices,
with `P i s` the MBAR expectation of the state-`s` indicator at ladder index
`i`. -/
noncomputable def deltaF_values (Tlist : List ℚ) (P : ℕ → ℕ → ℝ) (n_conf : ℕ) :
    List ((ℕ × ℕ) × List EReal) :=
  (transition_pairs n_conf).map (fun p =>
    (p, (List.range Tlist.length).map
      (fun i => deltaF_value ((Tlist.getD i 0 : ℚ) : ℝ) (P i p.1) (P i p.2))))

theorem lookup_map_pairs {β : Type} (l : List (ℕ × ℕ)) (f : ℕ × ℕ → β)
    (a : ℕ × ℕ) (ha : a ∈ l) :
    (l.map (fun p => (p, f p))).lookup a = some (f a) := by
  induction l with
  | nil => cases ha
  | cons p t ih =>
    by_cases hap : a = p
    · subst hap
      simp [List.lookup]
    · have hat : a ∈ t := by
        rcases List.mem_cons.mp ha with h | h
        · exact absurd h hap
        · exact h
      have hbeq : (a == p) = false := beq_eq_false_iff_ne.mpr hap
      simp [List.lookup, hbeq, ih hat]

theorem mem_transition_pairs (n s1 s2 : ℕ) (h1 : s1 < s2) (h2 : s2 < n) :
    (s1, s2) ∈ transition_pairs n := by
  rw [transition_pairs, List.mem_flatMap]
  refine ⟨s1, List.mem_range.mpr (by omega), List.mem_map.mpr ⟨s2, ?_, rfl⟩⟩
  exact List.mem_range'.mpr ⟨s2 - s1 - 1, by omega, by omega⟩

/-- C3: for every pair `s1 < s2` and ladder index `k`, the entry returned under
key `state{s1}_state{s2}` equals `-kB * T_k * (ln P(s1) - ln P(s2))`, where
`P(s)` is the MBAR expectation at `T_k` of the indicator of configurational
state `s`. -/
theorem deltaF_matches_formula (temps : List ℚ) (m : ℕ) (P : ℕ → ℕ → ℝ)
    (n_conf s1 s2 k : ℕ) (h12 : s1 < s2) (h2n : s2 < n_conf)
    (hk : k < (full_T_list temps m).length)
    (hP1 : 0 < P k s1) (hP2 : 0 < P k s2) :
    ∃ series, (deltaF_values (full_T_list temps m) P n_conf).lookup (s1, s2)
        = some series
      ∧ series.getD k 0 =
          ((-kB_val * ((full_T_list temps m).getD k 0 : ℝ)
            * (Real.log (P k s1) - Real.log (P k s2)) : ℝ) : EReal) := by
  refine ⟨_, lookup_map_pairs _ _ _ (mem_transition_pairs n_conf s1 s2 h12 h2n), ?_⟩
  rw [List.getD_eq_getElem _ _ (by rw [List.length_map, List.length_range]; exact hk),
    List.getElem_map, List.getElem_range]
  rw [deltaF_value, np_log, np_log, if_neg (ne_of_gt hP1), if_neg (ne_of_gt hP2),
    ← EReal.coe_sub, ← EReal.coe_mul]

/-- C3 witness: ladder of `[1, 2]` with no intermediates, two conformational
states with constant expectation `1/2`, evaluated at ladder index `0`. -/
theorem deltaF_matches_formula_witness :
    ((0 : ℕ) < 1 ∧ (1 : ℕ) < 2 ∧ 0 < (full_T_list [1, 2] 0).length
      ∧ (0 : ℝ) < (fun (_ _ : ℕ) => (1 / 2 : ℝ)) 0 0
      ∧ (0 : ℝ) < (fun (_ _ : ℕ) => (1 / 2 : ℝ)) 0 1)
    ∧ ∃ series,
      (deltaF_values (full_T_list [1, 2] 0) (fun (_ _ : ℕ) => (1 / 2 : ℝ)) 2).lookup
          (0, 1) = some series
      ∧ series.getD 0 0 =
          ((-kB_val * ((full_T_list [1, 2] 0).getD 0 0 : ℝ)
            * (Real.log ((fun (_ _ : ℕ) => (1 / 2 : ℝ)) 0 0)
              - Real.log ((fun (_ _ : ℕ) => (1 / 2 : ℝ)) 0 1)) : ℝ) : EReal) :=
  ⟨⟨by norm_num, by norm_num, by rw [full_T_list_length]; norm_num,
      by norm_num, by norm_num⟩,
    deltaF_matches_formula [1, 2] 0 (fun (_ _ : ℕ) => (1 / 2 : ℝ)) 2 0 1 0
      (by norm_num) (by norm_num) (by rw [full_T_list_length]; norm_num)
      (by norm_num) (by norm_num)⟩

/-! ## Indicator observables and out-of-range configurational labels
(free_energy.py lines 50-51 and 143-148)

`n_conf_states = len(np.unique(array_folded_states))` counts the distinct
label values, while the indicator rows `bool_i` are built only for the integer
values `0 .. n_conf_states-1`.  The expectation taken by the solver of any
observable is a per-sample weighted sum (Modelled from the spec, §4.3: pymbar
`computeMultipleExpectations` evaluates expectation functionals over the
samples; the weights are the solver's and stay universally quantified), so a
label set other than `{0,...,n-1}` makes some indicator row identically zero
and its expectation `0` for every weight vector. -/

/-- `len(np.unique(array_folded_states))` (free_energy.py line 51). -/
def n_conf_states (labels : List ℤ) : ℕ := labels.toFinset.card

/-- Indicator row `bool_i[i]` (free_energy.py lines 145-148): `1` where the
sample's label equals `i`, else `0`. -/
def bool_row (labels : List ℤ) (i : ℕ) : List ℝ :=
  labels.map (fun x => if x = (i : ℤ) then (1 : ℝ) else 0)

/-- Modelled from the spec: the expectation functional of the external MBAR
solver (spec §4.3) applied to an observable vector, as a per-sample weighted
sum with the solver-determined weights `w`. -/
def mbar_expectation (w A : List ℝ) : ℝ :=
  ((w.zip A).map (fun p => p.1 * p.2)).sum

/-- An `EReal` that is one of the two IEEE infinities. -/
def nonfinite (x : EReal) : Prop := x = ⊤ ∨ x = ⊥

/-- C10: if the distinct label values are not exactly `{0,...,n-1}` (with `n`
the number of distinct values), some indicator row over `0..n-1` is
identically zero, its MBAR expectation is `0` for every weight vector, and
every free-energy entry involving that state is non-finite (a logarithm of
zero is taken); no error is raised on this path. -/
theorem out_of_range_labels_give_nonfinite_deltaF (labels : List ℤ)
    (h : labels.toFinset
        ≠ (Finset.range (n_conf_states labels)).image (fun i : ℕ => (i : ℤ))) :
    ∃ s, s < n_conf_states labels
      ∧ (∀ x ∈ bool_row labels s, x = 0)
      ∧ (∀ w, mbar_expectation w (bool_row labels s) = 0)
      ∧ (∀ w (T x : ℝ), 0 < T →
          nonfinite (deltaF_value T (mbar_expectation w (bool_row labels s)) x)
          ∧ nonfinite (deltaF_value T x (mbar_expectation w (bool_row labels s)))) := by
  have hsub : ¬((Finset.range (n_conf_states labels)).image (fun i : ℕ => (i : ℤ))
      ⊆ labels.toFinset) := by
    intro hsub
    have hcard : ((Finset.range (n_conf_states labels)).image
        (fun i : ℕ => (i : ℤ))).card = n_conf_states labels := by
      rw [Finset.card_image_of_injective _ Nat.cast_injective, Finset.card_range]
    exact h (Finset.eq_of_subset_of_card_le hsub (le_of_eq hcard.symm)).symm
  obtain ⟨z, hz_mem, hz_not⟩ := Finset.not_subset.mp hsub
  obtain ⟨s, hs_range, rfl⟩ := Finset.mem_image.mp hz_mem
  have hzero : ∀ x ∈ bool_row labels s, x = 0 := by
    intro x hx
    rcases List.mem_map.mp hx with ⟨lab, hlab, rfl⟩
    rw [if_neg]
    intro heq
    exact hz_not (List.mem_toFinset.mpr (heq ▸ hlab))
  have hexp : ∀ w, mbar_expectation w (bool_row labels s) = 0 := by
    intro w
    rw [mbar_expectation]
    apply List.sum_eq_zero
    intro y hy
    rcases List.mem_map.mp hy with ⟨p, hp, rfl⟩
    rw [hzero p.2 (List.of_mem_zip hp).2, mul_zero]
  refine ⟨s, Finset.mem_range.mp hs_range, hzero, hexp, ?_⟩
  intro w T x hT
  have hc : ((-kB_val * T : ℝ) : EReal) < 0 := by
    have : (-kB_val * T : ℝ) < 0 := by
      have := kB_val_pos
      nlinarith
    exact_mod_cast this
  have hlog0 : np_log (0 : ℝ) = ⊥ := by rw [np_log, if_pos rfl]
  constructor
  · rw [deltaF_value, hexp, hlog0, EReal.bot_sub, EReal.mul_bot_of_neg hc]
    exact Or.inl rfl
  · rw [deltaF_value, hexp, hlog0]
    by_cases hx : x = 0
    · have hxlog : np_log x = ⊥ := by rw [np_log, if_pos hx]
      rw [hxlog, EReal.bot_sub, EReal.mul_bot_of_neg hc]
      exact Or.inl rfl
    · have hxlog : np_log x = ((Real.log x : ℝ) : EReal) := by rw [np_log, if_neg hx]
      rw [hxlog, EReal.sub_bot (EReal.coe_ne_bot _), EReal.mul_top_of_neg hc]
      exact Or.inr rfl

/-- C10 witness: the 1-based label array `[1, 2]` has two distinct values but
its value set is not `{0, 1}`. -/
theorem out_of_range_labels_give_nonfinite_deltaF_witness :
    ([1, 2] : List ℤ).toFinset
        ≠ (Finset.range (n_conf_states [1, 2])).image (fun i : ℕ => (i : ℤ))
    ∧ ∃ s, s < n_conf_states [1, 2]
      ∧ (∀ x ∈ bool_row [1, 2] s, x = 0)
      ∧ (∀ w, mbar_expectation w (bool_row [1, 2] s) = 0)
      ∧ (∀ w (T x : ℝ), 0 < T →
          nonfinite (deltaF_value T (mbar_expectation w (bool_row [1, 2] s)) x)
          ∧ nonfinite (deltaF_value T x (mbar_expectation w (bool_row [1, 2] s)))) :=
  ⟨by decide, out_of_range_labels_give_nonfinite_deltaF [1, 2] (by decide)⟩

/-! ## Units of the uncertainty entry (free_energy.py lines 165, 184-194)

Only multiplicative unit conversions occur, so a physical quantity is
modelled as a value together with the scale of its unit relative to fixed
reference units (kelvin for temperature, kJ/(K·mol) for the Boltzmann
constant's unit).  `value_in_unit` divides out the target unit's scale, and
the final `*= F_unit` of line 194 re-attaches `F_unit`.  The caller's
temperature unit has scale `u` (kelvin: `u = 1`; e.g. millikelvin:
`u = 1/1000`), so `F_unit = (-kB*T[0]*Tunit).unit` has scale `u`. -/

/-- A value carrying the scale of its unit relative to the reference units. -/
structure UQty where
  val : ℝ
  scale : ℝ

/-- Product of two unit-tagged quantities. -/
def qmul (a b : UQty) : UQty := ⟨a.val * b.val, a.scale * b.scale⟩

/-- `Quantity.value_in_unit`: the number representing `q` in a unit of scale
`u`. -/
noncomputable def value_in_unit (q : UQty) (u : ℝ) : ℝ := q.val * q.scale / u

/-- The physical magnitude of a quantity in reference units. -/
def magnitude (q : UQty) : ℝ := q.val * q.scale

/-- The scale of `F_unit = (-kB*full_T_list[0]*Tunit).unit`
(free_energy.py line 165) when the caller's temperature unit has scale `u`. -/
def F_unit_scale (u : ℝ) : ℝ := u

/-- The uncertainty entry as stored (free_energy.py lines 186-188):
`(kB * full_T_list[i] * unit.kelvin * np.sqrt(S)).value_in_unit(F_unit)`,
where `S` is the covariance combination and the hard-coded `unit.kelvin` has
scale `1`. -/
noncomputable def deltaF_uncertainty_stored (T_val S u : ℝ) : ℝ :=
  value_in_unit
    (qmul (qmul (qmul ⟨kB_val, 1⟩ ⟨T_val, 1⟩) ⟨1, 1⟩) ⟨Real.sqrt S, 1⟩)
    (F_unit_scale u)

/-- The uncertainty as returned after `*= F_unit` (free_energy.py line 194). -/
noncomputable def deltaF_uncertainty_returned (T_val S u : ℝ) : UQty :=
  ⟨deltaF_uncertainty_stored T_val S u, F_unit_scale u⟩

/-- The claim's formula: `kB * T_k * sqrt(S)` with `T_k` carrying the caller's
temperature unit of scale `u`. -/
noncomputable def claimed_uncertainty (T_val S u : ℝ) : UQty :=
  qmul (qmul ⟨kB_val, 1⟩ ⟨T_val, u⟩) ⟨Real.sqrt S, 1⟩

/-- C4: at the failing input — temperatures given in millikelvin (scale
`1/1000`), ladder value `300000` (300 K), covariance combination `1` — the
returned uncertainty is `kB·300000` kJ/mol (the ladder number taken as
kelvin, from the hard-coded `unit.kelvin` of line 187), a factor `1000` larger
than the claimed `kB·T_k·sqrt(S) = kB·300` kJ/mol with `T_k` in the caller's
unit. -/
theorem uncertainty_uses_kelvin_not_caller_unit :
    magnitude (deltaF_uncertainty_returned 300000 1 (1 / 1000)) = kB_val * 300000
    ∧ magnitude (claimed_uncertainty 300000 1 (1 / 1000)) = kB_val * 300
    ∧ magnitude (deltaF_uncertainty_returned 300000 1 (1 / 1000))
        ≠ magnitude (claimed_uncertainty 300000 1 (1 / 1000)) := by
  have hsqrt : Real.sqrt 1 = 1 := Real.sqrt_one
  have h1 : magnitude (deltaF_uncertainty_returned 300000 1 (1 / 1000))
      = kB_val * 300000 := by
    rw [magnitude, deltaF_uncertainty_returned, deltaF_uncertainty_stored,
      value_in_unit, qmul, qmul, qmul, F_unit_scale, hsqrt]
    norm_num
  have h2 : magnitude (claimed_uncertainty 300000 1 (1 / 1000)) = kB_val * 300 := by
    rw [magnitude, claimed_uncertainty, qmul, qmul, hsqrt]
    ring_nf
  refine ⟨h1, h2, ?_⟩
  rw [h1, h2]
  intro hcontra
  have := mul_left_cancel₀ (ne_of_gt kB_val_pos) hcontra
  norm_num at this

end CgOpenmm
